import Mathlib

/-
Verification of the WhisperLink in-memory secret store.

The server keeps `const secrets = new Map()` mapping a uuid string to
`{ content, expiresAt }`.  We embed the Map as an association list in
insertion order; `Map.get`, `Map.set`, `Map.delete` and `Map.size`
become `Store.get`, `Store.set`, `Store.del` and `List.length`.
Timestamps (`Date.now()` values, milliseconds) are embedded as `Nat`.
-/

/-- One stored secret: `{ content: string, expiresAt: timestamp }`. -/
structure SecretEntry where
  content : String
  expiresAt : Nat
deriving Repr, DecidableEq

/-- The `secrets` Map, as an association list in insertion order. -/
abbrev Store := List (String × SecretEntry)

/-- `secrets.get(id)`: first (only, keys are unique) binding of `id`. -/
def Store.get (s : Store) (id : String) : Option SecretEntry :=
  match s with
  | [] => none
  | (k, v) :: rest => if k = id then some v else Store.get rest id

/-- `secrets.delete(id)`: remove the binding of `id` (keys are unique in a
JS Map, so removing every binding is the same operation). -/
def Store.del (s : Store) (id : String) : Store :=
  match s with
  | [] => []
  | (k, v) :: rest =>
    if k = id then Store.del rest id else (k, v) :: Store.del rest id

/-- `secrets.set(id, e)`: replace in place if the key exists, else append
(JS Map insertion-order semantics). -/
def Store.set (s : Store) (id : String) (e : SecretEntry) : Store :=
  match s with
  | [] => [(id, e)]
  | (k, v) :: rest =>
    if k = id then (id, e) :: rest else (k, v) :: Store.set rest id e

/-- `secrets.size`. -/
def Store.size (s : Store) : Nat := s.length

/-- `const SECRET_TTL_HOURS = 24`. -/
def SECRET_TTL_HOURS : Nat := 24

/-- `SECRET_TTL_HOURS * 60 * 60 * 1000`, the TTL in milliseconds. -/
def ttlMs : Nat := SECRET_TTL_HOURS * 60 * 60 * 1000

/-- The set of code points removed by JavaScript `String.prototype.trim`
(ECMAScript WhiteSpace and LineTerminator). -/
def jsIsWhitespace (c : Char) : Bool :=
  let n := c.toNat
  (9 ≤ n && n ≤ 13) || n = 32 || n = 160 || n = 5760 ||
  (8192 ≤ n && n ≤ 8202) || n = 8232 || n = 8233 ||
  n = 8239 || n = 8287 || n = 12288 || n = 65279

/-- JavaScript `content.trim()`: strip leading and trailing whitespace. -/
def jsTrim (s : String) : String :=
  ⟨((s.data.dropWhile jsIsWhitespace).reverse.dropWhile jsIsWhitespace).reverse⟩

/-- Outcome of `POST /api/secrets`: either `res.status(400).json({error})`
or `res.json({ id, url, expiresAt, expiresIn })`.  The `url` field only
embeds `id` together with request-derived host data, so we keep `id` and
`expiresAt`, the data produced by the store operation itself. -/
inductive PutResult where
  | badRequest (msg : String)
  | created (id : String) (expiresAt : Nat)
deriving Repr, DecidableEq

/-- Whether the create request was accepted. -/
def PutResult.isCreated : PutResult → Bool
  | .badRequest _ => false
  | .created _ _ => true

/-- HTTP status of the create response. -/
def PutResult.status : PutResult → Nat
  | .badRequest _ => 400
  | .created _ _ => 200

/-- The `POST /api/secrets` handler.  `now` is `Date.now()` and `id` is the
value produced by `uuidv4()` (modelled as a parameter, since it is random).
The guard `!content || typeof content !== 'string' || content.trim().length
=== 0` collapses, for an actual string, to `content.trim().length === 0`
(the empty string is falsy and trims to itself). -/
def createSecret (s : Store) (content : String) (now : Nat) (id : String) :
    PutResult × Store :=
  if (jsTrim content).length = 0 then
    (.badRequest "Secret content is required", s)
  else if content.length > 100000 then
    (.badRequest "Secret content is too large (max 100KB)", s)
  else
    (.created id (now + ttlMs),
     Store.set s id ⟨jsTrim content, now + ttlMs⟩)

/-- Outcome of `GET /api/secrets/:id`: `res.json({ content })` (status 200)
or `res.status(404).json({ error: msg })`. -/
inductive TakeResult where
  | payload (content : String)
  | notFound (msg : String)
deriving Repr, DecidableEq

/-- Whether the retrieval returned the secret content. -/
def TakeResult.isPayload : TakeResult → Bool
  | .payload _ => true
  | .notFound _ => false

/-- HTTP status of the retrieve response. -/
def TakeResult.status : TakeResult → Nat
  | .payload _ => 200
  | .notFound _ => 404

/-- The `GET /api/secrets/:id` handler.  `!id || id.length !== 36` reduces
to the length test (the empty string has length 0). -/
def takeIfValid (s : Store) (id : String) (now : Nat) : TakeResult × Store :=
  if id.length ≠ 36 then
    (.notFound "Secret not found or already accessed", s)
  else
    match Store.get s id with
    | none => (.notFound "Secret not found or already accessed", s)
    | some secret =>
      if secret.expiresAt < now then
        (.notFound "Secret has expired", Store.del s id)
      else
        (.payload secret.content, Store.del s id)

/-- The body of the `setInterval` cleanup job: walk the entries, delete the
ones with `expiresAt < now`, count the deletions.  Returns (remaining
entries, cleanedCount). -/
def sweepAux : List (String × SecretEntry) → Nat → List (String × SecretEntry) × Nat
  | [], _ => ([], 0)
  | p :: rest, now =>
    let r := sweepAux rest now
    if p.2.expiresAt < now then (r.1, r.2 + 1) else (p :: r.1, r.2)

/-- One run of the cleanup job at time `now`. -/
def sweep (s : Store) (now : Nat) : Store × Nat := sweepAux s now

/-- A client-visible operation against the store.  `put` carries the
`Date.now()` value and the `uuidv4()` output of that request. -/
inductive Op where
  | put (content : String) (id : String) (now : Nat)
  | take (id : String) (now : Nat)
  | sweepNow (now : Nat)
deriving Repr, DecidableEq

/-- Effect of one operation on the store. -/
def step (s : Store) : Op → Store
  | .put content id now => (createSecret s content now id).2
  | .take id now => (takeIfValid s id now).2
  | .sweepNow now => (sweep s now).1

/-- Run a sequence of operations. -/
def run (s : Store) (ops : List Op) : Store := ops.foldl step s

/- Basic Store lemmas. -/

theorem get_del (s : Store) (id : String) : Store.get (Store.del s id) id = none := by
  induction s with
  | nil => rfl
  | cons p rest ih =>
    obtain ⟨k, v⟩ := p
    by_cases h : k = id
    · simpa [Store.del, h] using ih
    · simpa [Store.del, Store.get, h] using ih

theorem get_del_none (s : Store) (id id' : String) (h : Store.get s id = none) :
    Store.get (Store.del s id') id = none := by
  induction s with
  | nil => rfl
  | cons p rest ih =>
    obtain ⟨k, v⟩ := p
    simp only [Store.get] at h
    by_cases hk : k = id
    · simp [hk] at h
    · simp only [Store.get, hk, if_false] at h
      by_cases hk' : k = id'
      · simpa [Store.del, hk'] using ih h
      · simpa [Store.del, Store.get, hk, hk'] using ih h

theorem get_set_self (s : Store) (id : String) (e : SecretEntry) :
    Store.get (Store.set s id e) id = some e := by
  induction s with
  | nil => simp [Store.set, Store.get]
  | cons p rest ih =>
    obtain ⟨k, v⟩ := p
    by_cases h : k = id
    · simp [Store.set, Store.get, h]
    · simpa [Store.set, Store.get, h] using ih

theorem get_set_ne (s : Store) (id id' : String) (e : SecretEntry) (h : id' ≠ id) :
    Store.get (Store.set s id e) id' = Store.get s id' := by
  induction s with
  | nil => simp [Store.set, Store.get, Ne.symm h]
  | cons p rest ih =>
    obtain ⟨k, v⟩ := p
    by_cases hk : k = id
    · subst hk
      simp [Store.set, Store.get, Ne.symm h]
    · simp only [Store.set, hk, if_false, Store.get]
      by_cases hk' : k = id'
      · simp [hk']
      · simp [hk', ih]

theorem set_absent (s : Store) (id : String) (e : SecretEntry)
    (h : Store.get s id = none) : Store.set s id e = s ++ [(id, e)] := by
  induction s with
  | nil => rfl
  | cons p rest ih =>
    obtain ⟨k, v⟩ := p
    simp only [Store.get] at h
    by_cases hk : k = id
    · simp [hk] at h
    · simp only [Store.get, hk, if_false] at h
      simp [Store.set, hk, ih h]

theorem del_sublist (s : Store) (id : String) : List.Sublist (Store.del s id) s := by
  induction s with
  | nil => simp [Store.del]
  | cons p rest ih =>
    obtain ⟨k, v⟩ := p
    by_cases h : k = id
    · simpa [Store.del, h] using List.Sublist.cons (k, v) ih
    · simpa [Store.del, h] using List.Sublist.cons₂ (k, v) ih

theorem mem_of_get_some (s : Store) (id : String) (e : SecretEntry)
    (h : Store.get s id = some e) : (id, e) ∈ s := by
  induction s with
  | nil => simp [Store.get] at h
  | cons p rest ih =>
    obtain ⟨k, v⟩ := p
    simp only [Store.get] at h
    by_cases hk : k = id
    · simp only [hk, if_true, Option.some.injEq] at h
      subst hk; subst h; exact List.mem_cons_self _ _
    · exact List.mem_cons_of_mem _ (ih (by simpa [hk] using h))

theorem get_ne_none_of_mem (s : Store) (id : String) (e : SecretEntry)
    (h : (id, e) ∈ s) : Store.get s id ≠ none := by
  induction s with
  | nil => simp at h
  | cons p rest ih =>
    obtain ⟨k, v⟩ := p
    rcases List.mem_cons.mp h with h1 | h1
    · cases h1
      simp [Store.get]
    · by_cases hk : k = id
      · simp [Store.get, hk]
      · simpa [Store.get, hk] using ih h1

theorem get_none_of_sublist (l s : Store) (id : String)
    (hsub : List.Sublist l s) (h : Store.get s id = none) :
    Store.get l id = none := by
  cases hl : Store.get l id with
  | none => rfl
  | some e =>
    exact absurd h (get_ne_none_of_mem s id e (hsub.subset (mem_of_get_some l id e hl)))

/- Sweep characterization: the cleanup loop keeps exactly the entries with
`expiresAt ≥ now` and counts exactly the deleted ones. -/

theorem sweep_eq_filter (s : Store) (t : Nat) :
    (sweep s t).1 = s.filter (fun p => !decide (p.2.expiresAt < t)) ∧
    (sweep s t).2 = (s.filter (fun p => decide (p.2.expiresAt < t))).length := by
  induction s with
  | nil => exact ⟨rfl, rfl⟩
  | cons p rest ih =>
    obtain ⟨ih1, ih2⟩ := ih
    by_cases h : p.2.expiresAt < t
    · constructor
      · simpa [sweep, sweepAux, h, List.filter_cons] using ih1
      · simpa [sweep, sweepAux, h, List.filter_cons] using ih2
    · constructor
      · simpa [sweep, sweepAux, h, List.filter_cons] using ih1
      · simpa [sweep, sweepAux, h, List.filter_cons] using ih2

theorem sweep_sublist (s : Store) (t : Nat) : List.Sublist (sweep s t).1 s := by
  rw [(sweep_eq_filter s t).1]
  exact List.filter_sublist s

theorem sweep_count_length (s : Store) (t : Nat) :
    (sweep s t).2 + (sweep s t).1.length = s.length := by
  rw [(sweep_eq_filter s t).1, (sweep_eq_filter s t).2]
  have hp := (List.filter_append_perm (fun p => decide (p.2.expiresAt < t)) s).length_eq
  simpa [List.length_append] using hp

/- jsTrim lemmas: a nonempty trimmed string neither starts nor ends with
whitespace. -/

theorem head_dropWhile (p : Char → Bool) (l : List Char) (c : Char)
    (h : (l.dropWhile p).head? = some c) : p c = false := by
  induction l with
  | nil => simp [List.dropWhile] at h
  | cons a rest ih =>
    by_cases ha : p a
    · exact ih (by simpa [List.dropWhile, ha] using h)
    · simp only [List.dropWhile, ha, List.head?, Option.some.injEq] at h
      rw [← h]
      simpa using ha

theorem dropWhile_ne_nil_of_tail (p : Char → Bool) (l : List Char)
    (h : l.dropWhile p ≠ []) : l ≠ [] := by
  intro hl
  exact h (by simp [hl])

theorem getLast_dropWhile (p : Char → Bool) (l : List Char)
    (h : l.dropWhile p ≠ []) : (l.dropWhile p).getLast? = l.getLast? := by
  induction l with
  | nil => simp [List.dropWhile] at h
  | cons a rest ih =>
    by_cases ha : p a
    · have h' : rest.dropWhile p ≠ [] := by simpa [List.dropWhile, ha] using h
      have hr : rest ≠ [] := dropWhile_ne_nil_of_tail p rest h'
      rw [List.dropWhile_cons_of_pos ha, ih h']
      cases rest with
      | nil => exact absurd rfl hr
      | cons b l => rw [List.getLast?_cons_cons]
    · rw [List.dropWhile_cons_of_neg ha]

/-- The content invariant the validation plus trim establish: non-empty,
first and last characters not whitespace. -/
def isTrimmedNonEmpty (t : String) : Bool :=
  !t.data.isEmpty &&
    (t.data.head?.all fun c => !jsIsWhitespace c) &&
    (t.data.getLast?.all fun c => !jsIsWhitespace c)

theorem jsTrim_data (s : String) :
    (jsTrim s).data =
      ((s.data.dropWhile jsIsWhitespace).reverse.dropWhile jsIsWhitespace).reverse := rfl

theorem jsTrim_trimmedNonEmpty (s : String) (h : jsTrim s ≠ "") :
    isTrimmedNonEmpty (jsTrim s) = true := by
  have hdata : (jsTrim s).data ≠ [] := by
    intro hd
    exact h (String.ext (hd.trans rfl))
  rw [jsTrim_data] at hdata
  set d1 := s.data.dropWhile jsIsWhitespace with hd1
  set d2 := d1.reverse.dropWhile jsIsWhitespace with hd2
  have hd2ne : d2 ≠ [] := by simpa using hdata
  have hd1ne : d1.reverse ≠ [] := dropWhile_ne_nil_of_tail _ _ hd2ne
  have hhead : ∀ c, d2.reverse.head? = some c → jsIsWhitespace c = false := by
    intro c hc
    rw [List.head?_reverse] at hc
    rw [getLast_dropWhile _ _ hd2ne, List.getLast?_reverse] at hc
    exact head_dropWhile _ _ _ hc
  have hlast : ∀ c, d2.reverse.getLast? = some c → jsIsWhitespace c = false := by
    intro c hc
    rw [List.getLast?_reverse] at hc
    exact head_dropWhile _ _ _ hc
  unfold isTrimmedNonEmpty
  rw [jsTrim_data, ← hd1, ← hd2]
  cases hh : d2.reverse.head? with
  | none =>
    rw [List.head?_eq_none_iff] at hh
    exact absurd (List.reverse_eq_nil_iff.mp hh) hd2ne
  | some c =>
    cases hg : d2.reverse.getLast? with
    | none =>
      rw [List.getLast?_eq_none_iff] at hg
      exact absurd (List.reverse_eq_nil_iff.mp hg) hd2ne
    | some c' =>
      have h1 := hhead c hh
      have h2 := hlast c' hg
      simp [hh, hg, h1, h2, List.isEmpty_iff, hd2ne]

/- Concrete 36-character identifiers (uuidv4 output shape) for witnesses. -/

/-- A concrete uuid-shaped identifier. -/
def uuidA : String := "123e4567-e89b-12d3-a456-426614174000"

/-- A second, distinct uuid-shaped identifier. -/
def uuidB : String := "00000000-0000-4000-8000-000000000001"

/- Case lemmas for the GET handler. -/

theorem take_badlen (s : Store) (id : String) (now : Nat) (h : id.length ≠ 36) :
    takeIfValid s id now = (.notFound "Secret not found or already accessed", s) := by
  unfold takeIfValid
  rw [if_pos h]

theorem take_absent (s : Store) (id : String) (now : Nat)
    (h : Store.get s id = none) :
    takeIfValid s id now = (.notFound "Secret not found or already accessed", s) := by
  unfold takeIfValid
  by_cases h36 : id.length ≠ 36
  · rw [if_pos h36]
  · rw [if_neg h36, h]

theorem take_expired_aux (s : Store) (id : String) (e : SecretEntry) (now : Nat)
    (hid : id.length = 36) (hget : Store.get s id = some e)
    (hexp : e.expiresAt < now) :
    takeIfValid s id now = (.notFound "Secret has expired", Store.del s id) := by
  unfold takeIfValid
  rw [if_neg (by simp [hid]), hget]
  exact if_pos hexp

theorem take_valid_aux (s : Store) (id : String) (e : SecretEntry) (now : Nat)
    (hid : id.length = 36) (hget : Store.get s id = some e)
    (hexp : ¬ e.expiresAt < now) :
    takeIfValid s id now = (.payload e.content, Store.del s id) := by
  unfold takeIfValid
  rw [if_neg (by simp [hid]), hget]
  exact if_neg hexp

theorem take_store_cases (s : Store) (id : String) (now : Nat) :
    (takeIfValid s id now).2 = s ∨ (takeIfValid s id now).2 = Store.del s id := by
  by_cases h36 : id.length ≠ 36
  · rw [take_badlen s id now h36]
    exact Or.inl rfl
  · cases hg : Store.get s id with
    | none => rw [take_absent s id now hg]; exact Or.inl rfl
    | some e =>
      by_cases hexp : e.expiresAt < now
      · rw [take_expired_aux s id e now (by omega) hg hexp]
        exact Or.inr rfl
      · rw [take_valid_aux s id e now (by omega) hg hexp]
        exact Or.inr rfl

/- Case lemmas for the POST handler. -/

theorem createSecret_ok (s : Store) (content : String) (now : Nat) (id : String)
    (hne : (jsTrim content).length ≠ 0) (hsize : ¬ content.length > 100000) :
    createSecret s content now id =
      (.created id (now + ttlMs), Store.set s id ⟨jsTrim content, now + ttlMs⟩) := by
  unfold createSecret
  rw [if_neg hne, if_neg hsize]

/-- C7: for every Put call, the stored entry's expiresAt equals the creation
time plus the fixed configured TTL (default 24 hours: `SECRET_TTL_HOURS *
60 * 60 * 1000` milliseconds), and the handler returns both the fresh
identifier and that expiresAt instant. -/
theorem put_expiry (s : Store) (content id : String) (now : Nat)
    (hne : (jsTrim content).length ≠ 0) (hsize : ¬ content.length > 100000) :
    (createSecret s content now id).1 =
      .created id (now + SECRET_TTL_HOURS * 60 * 60 * 1000) ∧
    Store.get (createSecret s content now id).2 id =
      some ⟨jsTrim content, now + SECRET_TTL_HOURS * 60 * 60 * 1000⟩ := by
  rw [createSecret_ok s content now id hne hsize]
  exact ⟨rfl, get_set_self s id _⟩

/-- Witness for C7 at a concrete input. -/
theorem put_expiry_witness :
    (createSecret [] "hello" 0 uuidA).1 =
      .created uuidA (0 + SECRET_TTL_HOURS * 60 * 60 * 1000) ∧
    Store.get (createSecret [] "hello" 0 uuidA).2 uuidA =
      some ⟨jsTrim "hello", 0 + SECRET_TTL_HOURS * 60 * 60 * 1000⟩ :=
  put_expiry [] "hello" uuidA 0 (by decide) (by decide)

/-- C9: a create request whose content is empty, pure whitespace, or longer
than 100000 characters is rejected with HTTP 400, no entry is created, and
the store is unchanged. -/
theorem create_rejects_invalid (s : Store) (content id : String) (now : Nat)
    (h : (jsTrim content).length = 0 ∨ content.length > 100000) :
    PutResult.isCreated (createSecret s content now id).1 = false ∧
    PutResult.status (createSecret s content now id).1 = 400 ∧
    (createSecret s content now id).2 = s := by
  unfold createSecret
  rcases h with h | h
  · rw [if_pos h]
    exact ⟨rfl, rfl, rfl⟩
  · by_cases h0 : (jsTrim content).length = 0
    · rw [if_pos h0]
      exact ⟨rfl, rfl, rfl⟩
    · rw [if_neg h0, if_pos h]
      exact ⟨rfl, rfl, rfl⟩

/-- Witness for C9 at a concrete input (pure-whitespace content). -/
theorem create_rejects_invalid_witness :
    PutResult.isCreated (createSecret [] "   " 0 uuidA).1 = false ∧
    PutResult.status (createSecret [] "   " 0 uuidA).1 = 400 ∧
    (createSecret [] "   " 0 uuidA).2 = [] :=
  create_rejects_invalid [] "   " uuidA 0 (Or.inl (by decide))

/-- C2 counterexample: at the boundary instant `now = expiresAt` the claim
demands NotFound, but the handler, which tests `secret.expiresAt <
Date.now()` strictly, returns the payload. -/
theorem take_boundary_counterexample :
    (⟨"x", 5⟩ : SecretEntry).expiresAt ≤ 5 ∧
    Store.get [(uuidA, ⟨"x", 5⟩)] uuidA = some ⟨"x", 5⟩ ∧
    (takeIfValid [(uuidA, ⟨"x", 5⟩)] uuidA 5).1 = .payload "x" := by
  decide

/-- C2 amended: a TakeIfValid at time `now` on a (uuid-length) id whose
entry has `expiresAt < now` strictly removes the entry and returns
NotFound, never the payload, even if no sweep has run. -/
theorem take_expired_strict (s : Store) (id : String) (e : SecretEntry) (now : Nat)
    (hid : id.length = 36) (hget : Store.get s id = some e)
    (hexp : e.expiresAt < now) :
    (takeIfValid s id now).1 = .notFound "Secret has expired" ∧
    Store.get (takeIfValid s id now).2 id = none := by
  rw [take_expired_aux s id e now hid hget hexp]
  exact ⟨rfl, get_del s id⟩

/-- Witness for the amended C2 at a concrete input. -/
theorem take_expired_strict_witness :
    (takeIfValid [(uuidA, ⟨"x", 5⟩)] uuidA 10).1 = .notFound "Secret has expired" ∧
    Store.get (takeIfValid [(uuidA, ⟨"x", 5⟩)] uuidA 10).2 uuidA = none :=
  take_expired_strict [(uuidA, ⟨"x", 5⟩)] uuidA ⟨"x", 5⟩ 10 (by decide) (by decide)
    (by decide)

/-- C6 counterexample: an entry with `expiresAt = t` (so `expiresAt ≤ t`)
survives `Sweep(t)`, because the cleanup job tests `expiresAt < now`
strictly. -/
theorem sweep_boundary_counterexample :
    ∃ p ∈ (sweep [(uuidA, ⟨"x", 5⟩)] 5).1, p.2.expiresAt ≤ 5 := by
  decide

/-- C6 amended: `Sweep(t)` removes exactly the entries with `expiresAt < t`
(strict), keeps every entry with `expiresAt ≥ t`, and returns the number of
entries removed. -/
theorem sweep_removes_strictly_expired (s : Store) (t : Nat) :
    (sweep s t).1 = s.filter (fun p => !decide (p.2.expiresAt < t)) ∧
    (sweep s t).2 = (s.filter (fun p => decide (p.2.expiresAt < t))).length ∧
    (sweep s t).2 + (sweep s t).1.length = s.length :=
  ⟨(sweep_eq_filter s t).1, (sweep_eq_filter s t).2, sweep_count_length s t⟩

/-- C5 counterexample: a retrieval of a never-stored id and a retrieval of
an expired-but-unswept id produce observably different responses (the error
messages differ), contradicting the claim that the NotFound outcome is one
indistinguishable signal. -/
theorem notfound_messages_counterexample :
    (takeIfValid [] uuidA 10).1 ≠ (takeIfValid [(uuidA, ⟨"x", 5⟩)] uuidA 10).1 := by
  decide

/-- C5 amended: the status code is 404 for all three causes, and the
never-existed and already-consumed causes are indistinguishable (same
response for any two stores not containing the id), but an
expired-but-not-yet-swept id yields the distinct body
"Secret has expired". -/
theorem notfound_partial_unification (s1 s2 s3 : Store) (id1 id2 id3 : String)
    (n1 n2 n3 : Nat) (e : SecretEntry)
    (h1 : Store.get s1 id1 = none) (h2 : Store.get s2 id2 = none)
    (h3 : Store.get s3 id3 = some e) (he : e.expiresAt < n3)
    (hid3 : id3.length = 36) :
    (takeIfValid s1 id1 n1).1 = (takeIfValid s2 id2 n2).1 ∧
    TakeResult.status (takeIfValid s1 id1 n1).1 = 404 ∧
    (takeIfValid s3 id3 n3).1 = .notFound "Secret has expired" ∧
    TakeResult.status (takeIfValid s3 id3 n3).1 = 404 := by
  rw [take_absent s1 id1 n1 h1, take_absent s2 id2 n2 h2,
    take_expired_aux s3 id3 e n3 hid3 h3 he]
  exact ⟨rfl, rfl, rfl, rfl⟩

/-- Witness for the amended C5 at concrete inputs. -/
theorem notfound_partial_unification_witness :
    (takeIfValid [] uuidA 1).1 = (takeIfValid [(uuidB, ⟨"y", 9⟩)] uuidA 2).1 ∧
    TakeResult.status (takeIfValid [] uuidA 1).1 = 404 ∧
    (takeIfValid [(uuidA, ⟨"x", 5⟩)] uuidA 10).1 = .notFound "Secret has expired" ∧
    TakeResult.status (takeIfValid [(uuidA, ⟨"x", 5⟩)] uuidA 10).1 = 404 :=
  notfound_partial_unification [] [(uuidB, ⟨"y", 9⟩)] [(uuidA, ⟨"x", 5⟩)]
    uuidA uuidA uuidA 1 2 10 ⟨"x", 5⟩ (by decide) (by decide) (by decide)
    (by decide) (by decide)

/-- C4 counterexample: the handler stores `content.trim()`, so a payload
with leading and trailing whitespace does not round-trip byte-for-byte. -/
theorem roundtrip_trim_counterexample :
    (takeIfValid (createSecret [] " a " 0 uuidA).2 uuidA 0).1 = .payload "a" ∧
    (" a " : String) ≠ "a" := by
  decide

/-- C4 amended: Put stores the trimmed content; an immediate TakeIfValid of
the returned id (before the TTL elapses) returns `jsTrim` of the original
input, which is byte-for-byte the original exactly when the input carries
no leading or trailing whitespace. -/
theorem round_trip_trimmed (s : Store) (content id : String) (now t : Nat)
    (hid : id.length = 36)
    (hne : (jsTrim content).length ≠ 0) (hsize : ¬ content.length > 100000)
    (hlive : ¬ now + ttlMs < t) :
    (takeIfValid (createSecret s content now id).2 id t).1 =
      .payload (jsTrim content) ∧
    (jsTrim content = content →
      (takeIfValid (createSecret s content now id).2 id t).1 = .payload content) := by
  have hstore : Store.get (createSecret s content now id).2 id =
      some ⟨jsTrim content, now + ttlMs⟩ := by
    rw [createSecret_ok s content now id hne hsize]
    exact get_set_self s id _
  have hval := take_valid_aux (createSecret s content now id).2 id
    ⟨jsTrim content, now + ttlMs⟩ t hid hstore hlive
  constructor
  · rw [hval]
  · intro hcc
    rw [hval, hcc]

/- Concurrency model: the Node event loop runs each request handler to
completion before starting the next, so any set of concurrent retrievals of
one id executes as some serial order of atomic handler runs.  `takeSeq`
runs such a serial order, collecting every response. -/

/-- Run one retrieval per listed time, in order, against the same id. -/
def takeSeq (s : Store) (id : String) : List Nat → List TakeResult × Store
  | [] => ([], s)
  | t :: ts =>
    let first := takeIfValid s id t
    let rest := takeSeq first.2 id ts
    (first.1 :: rest.1, rest.2)

theorem takeSeq_absent (s : Store) (id : String) (ts : List Nat)
    (h : Store.get s id = none) :
    (takeSeq s id ts).1 =
      ts.map (fun _ => TakeResult.notFound "Secret not found or already accessed") ∧
    (takeSeq s id ts).2 = s := by
  induction ts with
  | nil => exact ⟨rfl, rfl⟩
  | cons t ts ih =>
    have ha := take_absent s id t h
    simp only [takeSeq, ha, List.map_cons]
    exact ⟨by rw [ih.1], ih.2⟩

theorem filter_isPayload_all_notFound (msg : String) (ts : List Nat) :
    List.filter TakeResult.isPayload
      (ts.map fun _ => TakeResult.notFound msg) = [] := by
  induction ts with
  | nil => rfl
  | cons t ts ih => simp [List.filter_cons, TakeResult.isPayload, ih]

/-- C1: for an id holding a live, unexpired entry, among any number of
retrievals of that id (executed in the serial order the event loop gives
them), exactly one response is the payload and every other response is
NotFound. -/
theorem at_most_once (s : Store) (id : String) (e : SecretEntry) (t : Nat)
    (ts : List Nat) (hid : id.length = 36) (hget : Store.get s id = some e)
    (hlive : ¬ e.expiresAt < t) :
    List.filter TakeResult.isPayload (takeSeq s id (t :: ts)).1 =
      [.payload e.content] ∧
    (takeSeq s id (t :: ts)).1.length = ts.length + 1 := by
  have h1 := take_valid_aux s id e t hid hget hlive
  have h2 := takeSeq_absent (Store.del s id) id ts (get_del s id)
  constructor
  · simp only [takeSeq, h1, h2.1, List.filter_cons, TakeResult.isPayload,
      if_pos, filter_isPayload_all_notFound]
  · simp only [takeSeq, h1, h2.1, List.length_cons, List.length_map]

/-- Witness for C1: three serialized retrievals of one live entry. -/
theorem at_most_once_witness :
    List.filter TakeResult.isPayload
      (takeSeq [(uuidA, ⟨"hello", 100⟩)] uuidA [50, 60, 70]).1 =
      [.payload "hello"] ∧
    (takeSeq [(uuidA, ⟨"hello", 100⟩)] uuidA [50, 60, 70]).1.length =
      [60, 70].length + 1 :=
  at_most_once [(uuidA, ⟨"hello", 100⟩)] uuidA ⟨"hello", 100⟩ 50 [60, 70]
    (by decide) (by decide) (by decide)

/- No-resurrection machinery: absence of an id is preserved by every
operation that is not a Put of that very id. -/

/-- Whether an operation is a Put that introduces exactly this id. -/
def Op.putsId (op : Op) (id : String) : Bool :=
  match op with
  | .put _ i _ => i == id
  | _ => false

theorem step_preserves_absent (s : Store) (id : String) (op : Op)
    (h : Store.get s id = none) (hop : Op.putsId op id = false) :
    Store.get (step s op) id = none := by
  cases op with
  | put content i now =>
    have hne : id ≠ i := by
      intro hh
      rw [hh] at hop
      simp [Op.putsId] at hop
    show Store.get (createSecret s content now i).2 id = none
    unfold createSecret
    by_cases h0 : (jsTrim content).length = 0
    · rw [if_pos h0]
      exact h
    · by_cases h1 : content.length > 100000
      · rw [if_neg h0, if_pos h1]
        exact h
      · rw [if_neg h0, if_neg h1]
        rw [get_set_ne s i id _ hne]
        exact h
  | take i now =>
    show Store.get (takeIfValid s i now).2 id = none
    rcases take_store_cases s i now with hc | hc
    · rw [hc]
      exact h
    · rw [hc]
      exact get_del_none s id i h
  | sweepNow now =>
    show Store.get (sweep s now).1 id = none
    exact get_none_of_sublist _ s id (sweep_sublist s now) h

theorem run_preserves_absent (s : Store) (id : String) (ops : List Op)
    (h : Store.get s id = none)
    (hops : (ops.all fun op => !Op.putsId op id) = true) :
    Store.get (run s ops) id = none := by
  induction ops generalizing s with
  | nil => exact h
  | cons op ops ih =>
    rw [List.all_cons, Bool.and_eq_true] at hops
    have h1 : Op.putsId op id = false := by
      cases hb : Op.putsId op id
      · rfl
      · rw [hb] at hops
        simp at hops
    exact ih (step s op) (step_preserves_absent s id op h h1) hops.2

/-- C3: once an id is absent from the store (consumed, expired-deleted, or
swept), it stays absent across any further operations that do not Put that
same id (uuidv4 never reuses an id), and any retrieval of it returns
NotFound. -/
theorem no_resurrection (s : Store) (id : String) (ops : List Op) (now : Nat)
    (habs : Store.get s id = none)
    (hops : (ops.all fun op => !Op.putsId op id) = true) :
    Store.get (run s ops) id = none ∧
    (takeIfValid (run s ops) id now).1 =
      .notFound "Secret not found or already accessed" := by
  have h := run_preserves_absent s id ops habs hops
  refine ⟨h, ?_⟩
  rw [take_absent (run s ops) id now h]

/-- Witness for C3: the consumed id `uuidA` stays NotFound across later
creates, sweeps and retrievals of other ids. -/
theorem no_resurrection_witness :
    Store.get (run [(uuidB, ⟨"y", 50⟩)]
      [Op.put "hi" "ffffffff-ffff-4fff-8fff-ffffffffffff" 0, Op.sweepNow 5,
       Op.take uuidB 10]) uuidA = none ∧
    (takeIfValid (run [(uuidB, ⟨"y", 50⟩)]
      [Op.put "hi" "ffffffff-ffff-4fff-8fff-ffffffffffff" 0, Op.sweepNow 5,
       Op.take uuidB 10]) uuidA 20).1 =
      .notFound "Secret not found or already accessed" :=
  no_resurrection [(uuidB, ⟨"y", 50⟩)]
    uuidA
    [Op.put "hi" "ffffffff-ffff-4fff-8fff-ffffffffffff" 0, Op.sweepNow 5,
     Op.take uuidB 10] 20 (by decide) (by decide)

/-- Witness for the amended C4 at a concrete input. -/
theorem round_trip_trimmed_witness :
    (takeIfValid (createSecret [] " hi " 0 uuidA).2 uuidA 5).1 =
      .payload (jsTrim " hi ") ∧
    (jsTrim " hi " = " hi " →
      (takeIfValid (createSecret [] " hi " 0 uuidA).2 uuidA 5).1 =
        .payload " hi ") :=
  round_trip_trimmed [] " hi " uuidA 0 5 (by decide) (by decide) (by decide)
    (by decide)

/- Content invariant (C10): every reachable stored entry holds a non-empty
string with no leading or trailing whitespace, because validation rejects
trim-empty content and the handler stores `content.trim()`. -/

/-- The invariant on one stored binding. -/
def contentOk (p : String × SecretEntry) : Bool := isTrimmedNonEmpty p.2.content

theorem all_of_sublist (l s : Store) (f : String × SecretEntry → Bool)
    (hsub : List.Sublist l s) (h : s.all f = true) : l.all f = true := by
  rw [List.all_eq_true] at h ⊢
  exact fun x hx => h x (hsub.subset hx)

theorem all_set (s : Store) (id : String) (e : SecretEntry)
    (f : String × SecretEntry → Bool)
    (h : s.all f = true) (he : f (id, e) = true) :
    (Store.set s id e).all f = true := by
  induction s with
  | nil => simpa [Store.set] using he
  | cons p rest ih =>
    obtain ⟨k, v⟩ := p
    rw [List.all_cons, Bool.and_eq_true] at h
    by_cases hk : k = id
    · simp only [Store.set, hk, if_pos, List.all_cons, Bool.and_eq_true]
      exact ⟨he, h.2⟩
    · simp only [Store.set, hk, if_neg, ite_false, List.all_cons, Bool.and_eq_true]
      exact ⟨h.1, ih h.2⟩

theorem step_contentOk (s : Store) (op : Op)
    (h : s.all contentOk = true) : (step s op).all contentOk = true := by
  cases op with
  | put content i now =>
    show ((createSecret s content now i).2.all contentOk) = true
    unfold createSecret
    by_cases h0 : (jsTrim content).length = 0
    · rw [if_pos h0]
      exact h
    · by_cases h1 : content.length > 100000
      · rw [if_neg h0, if_pos h1]
        exact h
      · rw [if_neg h0, if_neg h1]
        apply all_set s i _ contentOk h
        have hne : jsTrim content ≠ "" := by
          intro hh
          exact h0 (by rw [hh]; rfl)
        exact jsTrim_trimmedNonEmpty content hne
  | take i now =>
    show ((takeIfValid s i now).2.all contentOk) = true
    rcases take_store_cases s i now with hc | hc
    · rw [hc]
      exact h
    · rw [hc]
      exact all_of_sublist _ s contentOk (del_sublist s i) h
  | sweepNow now =>
    show ((sweep s now).1.all contentOk) = true
    exact all_of_sublist _ s contentOk (sweep_sublist s now) h

theorem run_contentOk (s : Store) (ops : List Op)
    (h : s.all contentOk = true) : (run s ops).all contentOk = true := by
  induction ops generalizing s with
  | nil => exact h
  | cons op ops ih => exact ih (step s op) (step_contentOk s op h)

/-- C10: in every store state reachable from the empty store through the
public operations, every stored entry's content is a non-empty string with
no leading or trailing whitespace. -/
theorem stored_content_trimmed (ops : List Op) :
    ((run [] ops).all contentOk) = true :=
  run_contentOk [] ops rfl

/- Size accounting (C8): keys of a reachable store are pairwise distinct,
so every deletion removes exactly one entry. -/

/-- Keys are pairwise distinct (a JS Map cannot hold duplicate keys). -/
def keysND (s : Store) : Prop := (s.map Prod.fst).Nodup

theorem get_none_of_not_mem_keys (s : Store) (id : String)
    (h : id ∉ s.map Prod.fst) : Store.get s id = none := by
  induction s with
  | nil => rfl
  | cons p rest ih =>
    obtain ⟨k, v⟩ := p
    rw [List.map_cons, List.mem_cons] at h
    push_neg at h
    have hk : ¬ k = id := fun hh => h.1 hh.symm
    rw [Store.get, if_neg hk]
    exact ih h.2

theorem not_mem_keys_of_get_none (s : Store) (id : String)
    (h : Store.get s id = none) : id ∉ s.map Prod.fst := by
  induction s with
  | nil => simp
  | cons p rest ih =>
    obtain ⟨k, v⟩ := p
    rw [Store.get] at h
    by_cases hk : k = id
    · rw [if_pos hk] at h
      exact absurd h (by simp)
    · rw [if_neg hk] at h
      rw [List.map_cons, List.mem_cons]
      push_neg
      exact ⟨fun hh => hk hh.symm, ih h⟩

theorem del_absent (s : Store) (id : String) (h : Store.get s id = none) :
    Store.del s id = s := by
  induction s with
  | nil => rfl
  | cons p rest ih =>
    obtain ⟨k, v⟩ := p
    rw [Store.get] at h
    by_cases hk : k = id
    · rw [if_pos hk] at h
      exact absurd h (by simp)
    · rw [if_neg hk] at h
      rw [Store.del, if_neg hk, ih h]

theorem del_length_present (s : Store) (id : String) (e : SecretEntry)
    (hnd : keysND s) (h : Store.get s id = some e) :
    (Store.del s id).length + 1 = s.length := by
  induction s with
  | nil => exact absurd h (by rw [Store.get]; simp)
  | cons p rest ih =>
    obtain ⟨k, v⟩ := p
    rw [keysND, List.map_cons, List.nodup_cons] at hnd
    rw [Store.get] at h
    by_cases hk : k = id
    · subst hk
      have habs : Store.get rest k = none := get_none_of_not_mem_keys rest k hnd.1
      rw [Store.del, if_pos rfl, del_absent rest k habs, List.length_cons]
    · rw [if_neg hk] at h
      rw [Store.del, if_neg hk, List.length_cons, List.length_cons]
      rw [ih hnd.2 h]

theorem keysND_of_sublist (l s : Store) (hsub : List.Sublist l s)
    (h : keysND s) : keysND l :=
  List.Nodup.sublist (List.Sublist.map Prod.fst hsub) h

theorem keysND_set_absent (s : Store) (id : String) (e : SecretEntry)
    (hnd : keysND s) (h : Store.get s id = none) :
    keysND (Store.set s id e) := by
  rw [keysND, set_absent s id e h, List.map_append]
  rw [List.nodup_append]
  refine ⟨hnd, List.nodup_singleton id, ?_⟩
  intro x hx hx1
  rw [List.map_cons, List.map_nil, List.mem_singleton] at hx1
  subst hx1
  exact not_mem_keys_of_get_none s x h hx

/-- Bookkeeping fold: runs the operations while counting accepted Put calls
and entries removed by a retrieval or a sweep.  A retrieval removed an entry
exactly when the id was bound before the call and unbound after it; a sweep
reports its own cleanedCount. -/
def traceStep : Store × Nat × Nat → Op → Store × Nat × Nat
  | (s, puts, rems), Op.put content id now =>
    ((createSecret s content now id).2,
     puts + (if PutResult.isCreated (createSecret s content now id).1 then 1 else 0),
     rems)
  | (s, puts, rems), Op.take id now =>
    ((takeIfValid s id now).2, puts,
     rems + (if (Store.get s id).isSome &&
               (Store.get (takeIfValid s id now).2 id).isNone then 1 else 0))
  | (s, puts, rems), Op.sweepNow now =>
    ((sweep s now).1, puts, rems + (sweep s now).2)

/-- Run a trace from the empty store with both counters at zero. -/
def runCounts (ops : List Op) : Store × Nat × Nat :=
  ops.foldl traceStep ([], 0, 0)

/-- Whether the uuid of a Put is unused at the moment of the call. -/
def opFresh (s : Store) : Op → Bool
  | .put _ id _ => (Store.get s id).isNone
  | _ => true

/-- Every Put in the trace draws an identifier unused at its call
(the uuidv4 freshness guarantee). -/
def FreshRun (s : Store) : List Op → Bool
  | [] => true
  | op :: ops => opFresh s op && FreshRun (step s op) ops

theorem traceStep_store (s : Store) (puts rems : Nat) (op : Op) :
    (traceStep (s, puts, rems) op).1 = step s op := by
  cases op <;> rfl

theorem trace_balance (ops : List Op) (s : Store) (puts rems : Nat)
    (hnd : keysND s) (hbal : s.length + rems = puts)
    (hf : FreshRun s ops = true) :
    (ops.foldl traceStep (s, puts, rems)).1.length +
        (ops.foldl traceStep (s, puts, rems)).2.2 =
      (ops.foldl traceStep (s, puts, rems)).2.1 := by
  induction ops generalizing s puts rems with
  | nil => simpa using hbal
  | cons op ops ih =>
    rw [FreshRun, Bool.and_eq_true] at hf
    rw [List.foldl_cons]
    cases op with
    | put content id now =>
      have hfresh : Store.get s id = none := by
        have := hf.1
        rw [opFresh, Option.isNone_iff_eq_none] at this
        exact this
      have hstep : step s (Op.put content id now) = (createSecret s content now id).2 := rfl
      by_cases h0 : (jsTrim content).length = 0
      · have hcs : createSecret s content now id =
            (.badRequest "Secret content is required", s) := by
          unfold createSecret
          rw [if_pos h0]
        have hts : traceStep (s, puts, rems) (Op.put content id now) = (s, puts, rems) := by
          show ((createSecret s content now id).2,
            puts + (if PutResult.isCreated (createSecret s content now id).1 then 1 else 0),
            rems) = (s, puts, rems)
          rw [hcs]
          simp [PutResult.isCreated]
        rw [hts]
        refine ih s puts rems hnd hbal ?_
        have hss : step s (Op.put content id now) = s := by
          rw [hstep, hcs]
        rw [hss] at hf
        exact hf.2
      · by_cases h1 : content.length > 100000
        · have hcs : createSecret s content now id =
              (.badRequest "Secret content is too large (max 100KB)", s) := by
            unfold createSecret
            rw [if_neg h0, if_pos h1]
          have hts : traceStep (s, puts, rems) (Op.put content id now) = (s, puts, rems) := by
            show ((createSecret s content now id).2,
              puts + (if PutResult.isCreated (createSecret s content now id).1 then 1 else 0),
              rems) = (s, puts, rems)
            rw [hcs]
            simp [PutResult.isCreated]
          rw [hts]
          refine ih s puts rems hnd hbal ?_
          have hss : step s (Op.put content id now) = s := by
            rw [hstep, hcs]
          rw [hss] at hf
          exact hf.2
        · have hcs := createSecret_ok s content now id h0 h1
          have hset := set_absent s id ⟨jsTrim content, now + ttlMs⟩ hfresh
          have hts : traceStep (s, puts, rems) (Op.put content id now) =
              (Store.set s id ⟨jsTrim content, now + ttlMs⟩, puts + 1, rems) := by
            show ((createSecret s content now id).2,
              puts + (if PutResult.isCreated (createSecret s content now id).1 then 1 else 0),
              rems) = _
            rw [hcs]
            simp [PutResult.isCreated]
          rw [hts]
          have hnd' : keysND (Store.set s id ⟨jsTrim content, now + ttlMs⟩) :=
            keysND_set_absent s id _ hnd hfresh
          have hlen : (Store.set s id ⟨jsTrim content, now + ttlMs⟩).length + rems
              = puts + 1 := by
            rw [hset, List.length_append]
            simpa using by omega
          refine ih _ (puts + 1) rems hnd' hlen ?_
          have : step s (Op.put content id now) =
              Store.set s id ⟨jsTrim content, now + ttlMs⟩ := by
            rw [hstep, hcs]
          rw [this] at hf
          exact hf.2
    | take id now =>
      have hstep : step s (Op.take id now) = (takeIfValid s id now).2 := rfl
      by_cases h36 : id.length ≠ 36
      · have htk := take_badlen s id now h36
        have hts : traceStep (s, puts, rems) (Op.take id now) = (s, puts, rems) := by
          show ((takeIfValid s id now).2, puts,
            rems + (if (Store.get s id).isSome &&
              (Store.get (takeIfValid s id now).2 id).isNone then 1 else 0)) = _
          rw [htk]
          cases hg : Store.get s id <;> simp [hg]
        rw [hts]
        refine ih s puts rems hnd hbal ?_
        rw [hstep, htk] at hf
        exact hf.2
      · cases hg : Store.get s id with
        | none =>
          have htk := take_absent s id now hg
          have hts : traceStep (s, puts, rems) (Op.take id now) = (s, puts, rems) := by
            show ((takeIfValid s id now).2, puts,
              rems + (if (Store.get s id).isSome &&
                (Store.get (takeIfValid s id now).2 id).isNone then 1 else 0)) = _
            rw [htk, hg]
            simp
          rw [hts]
          refine ih s puts rems hnd hbal ?_
          rw [hstep, htk] at hf
          exact hf.2
        | some e =>
          have hid : id.length = 36 := by omega
          have htk : (takeIfValid s id now).2 = Store.del s id := by
            by_cases hexp : e.expiresAt < now
            · rw [take_expired_aux s id e now hid hg hexp]
            · rw [take_valid_aux s id e now hid hg hexp]
          have hts : traceStep (s, puts, rems) (Op.take id now) =
              (Store.del s id, puts, rems + 1) := by
            show ((takeIfValid s id now).2, puts,
              rems + (if (Store.get s id).isSome &&
                (Store.get (takeIfValid s id now).2 id).isNone then 1 else 0)) = _
            rw [htk, hg, get_del]
            simp
          rw [hts]
          have hnd' : keysND (Store.del s id) :=
            keysND_of_sublist _ s (del_sublist s id) hnd
          have hlen : (Store.del s id).length + (rems + 1) = puts := by
            have := del_length_present s id e hnd hg
            omega
          refine ih _ puts (rems + 1) hnd' hlen ?_
          rw [hstep, htk] at hf
          exact hf.2
    | sweepNow now =>
      have hstep : step s (Op.sweepNow now) = (sweep s now).1 := rfl
      have hts : traceStep (s, puts, rems) (Op.sweepNow now) =
          ((sweep s now).1, puts, rems + (sweep s now).2) := rfl
      rw [hts]
      have hnd' : keysND (sweep s now).1 :=
        keysND_of_sublist _ s (sweep_sublist s now) hnd
      have hlen : (sweep s now).1.length + (rems + (sweep s now).2) = puts := by
        have := sweep_count_length s now
        omega
      refine ih _ puts (rems + (sweep s now).2) hnd' hlen ?_
      rw [hstep] at hf
      exact hf.2

theorem runCounts_store (ops : List Op) :
    ∀ s puts rems, (ops.foldl traceStep (s, puts, rems)).1 = ops.foldl step s := by
  induction ops with
  | nil => intro s puts rems; rfl
  | cons op ops ih =>
    intro s puts rems
    rw [List.foldl_cons, List.foldl_cons]
    rcases hts : traceStep (s, puts, rems) op with ⟨s', puts', rems'⟩
    have hs' : s' = step s op := by
      have := traceStep_store s puts rems op
      rw [hts] at this
      exact this
    rw [hs']
    exact ih (step s op) puts' rems'

/-- C8: at every quiescent point of a trace from the empty store in which
each Put uses a fresh uuid, the store size equals the number of accepted
Put calls minus the number of entries removed by TakeIfValid or Sweep (and
the bookkeeping fold follows the real store). -/
theorem size_accounting (ops : List Op) (h : FreshRun [] ops = true) :
    Store.size (runCounts ops).1 =
      (runCounts ops).2.1 - (runCounts ops).2.2 ∧
    Store.size (runCounts ops).1 + (runCounts ops).2.2 = (runCounts ops).2.1 ∧
    (runCounts ops).1 = run [] ops := by
  have hb := trace_balance ops [] 0 0 (by simp [keysND]) (by simp) h
  refine ⟨?_, hb, runCounts_store ops [] 0 0⟩
  have : Store.size (runCounts ops).1 = (runCounts ops).1.length := rfl
  rw [this]
  rw [runCounts] at *
  omega

/-- Witness for C8: a concrete trace with two accepted creates, one
rejected create, one consuming retrieval and one sweep. -/
theorem size_accounting_witness :
    Store.size (runCounts [Op.put "hi" uuidA 0, Op.put " " uuidB 1,
      Op.put "yo" uuidB 2, Op.take uuidA 3, Op.sweepNow 4]).1 =
      (runCounts [Op.put "hi" uuidA 0, Op.put " " uuidB 1,
        Op.put "yo" uuidB 2, Op.take uuidA 3, Op.sweepNow 4]).2.1 -
      (runCounts [Op.put "hi" uuidA 0, Op.put " " uuidB 1,
        Op.put "yo" uuidB 2, Op.take uuidA 3, Op.sweepNow 4]).2.2 ∧
    Store.size (runCounts [Op.put "hi" uuidA 0, Op.put " " uuidB 1,
      Op.put "yo" uuidB 2, Op.take uuidA 3, Op.sweepNow 4]).1 +
      (runCounts [Op.put "hi" uuidA 0, Op.put " " uuidB 1,
        Op.put "yo" uuidB 2, Op.take uuidA 3, Op.sweepNow 4]).2.2 =
      (runCounts [Op.put "hi" uuidA 0, Op.put " " uuidB 1,
        Op.put "yo" uuidB 2, Op.take uuidA 3, Op.sweepNow 4]).2.1 ∧
    (runCounts [Op.put "hi" uuidA 0, Op.put " " uuidB 1,
      Op.put "yo" uuidB 2, Op.take uuidA 3, Op.sweepNow 4]).1 =
      run [] [Op.put "hi" uuidA 0, Op.put " " uuidB 1,
        Op.put "yo" uuidB 2, Op.take uuidA 3, Op.sweepNow 4] :=
  size_accounting [Op.put "hi" uuidA 0, Op.put " " uuidB 1,
    Op.put "yo" uuidB 2, Op.take uuidA 3, Op.sweepNow 4] (by decide)

